import Mathlib

/-!
# Verification of the navidrome library-synchronization core

Shallow embedding of the scanner2 folder-diff engine, the tag-extraction
batching, the metadata participation mapper, and the media-file repository
operations, translated from the Go sources, together with proofs of the
specification claims about them.

Times are modelled as `Int` (Unix-style instants); Go `time.Time.After`
is strict `<` on these instants.
-/

namespace Navidrome

/-- `model.Artist` (the fields used by the participation mapper). -/
structure Artist where
  id : String
  name : String
  sortArtistName : String
  orderArtistName : String
  mbzArtistID : String
deriving DecidableEq, Repr

/-- `model.Role`: closed enumeration of participation roles
(`model/participations.go`). -/
inductive Role where
  | invalid
  | artist
  | albumArtist
  | composer
  | conductor
  | lyricist
  | arranger
  | producer
  | director
  | engineer
  | mixer
  | remixer
  | djmixer
  | performer
deriving DecidableEq, Repr

/-- `model.Participations`: Go `map[Role][]Artist`. A Go map read of an
absent key yields the nil slice, so the map is modelled as a total
function defaulting to `[]`. -/
def Participations := Role → List Artist

/-- The empty participations map. -/
def Participations.empty : Participations := fun _ => []

/-- The artist-slice update behind `Participations.Add`: Go builds a
`seen` set of the artist IDs already in `p[role]` and appends each new
artist whose ID has not been seen (newly appended IDs are also added to
`seen`). Checking the accumulator's own IDs reproduces exactly that. -/
def addArtists (cur new : List Artist) : List Artist :=
  new.foldl (fun acc a => if (acc.map Artist.id).contains a.id then acc else acc ++ [a]) cur

/-- `Participations.Add(role, artists...)`: adds the artists to the role,
ignoring duplicate artist IDs. -/
def Participations.add (p : Participations) (role : Role) (artists : List Artist) :
    Participations :=
  fun r => if r = role then addArtists (p r) artists else p r

/-- `Participations.Merge(other)`: for each role present in `other`, adds
its artists via `Add`. `Add` with an empty artist list is a no-op and a
Go map read of an absent role is the nil slice, so iterating only the
roles present in `other` is extensionally the pointwise operation. -/
def Participations.merge (p other : Participations) : Participations :=
  fun r => addArtists (p r) (other r)

/-- `Participations.First(role)`: first artist for the role, or the zero
`Artist` when absent/empty. -/
def Participations.first (p : Participations) (role : Role) : Artist :=
  match p role with
  | [] => ⟨"", "", "", "", ""⟩
  | a :: _ => a

/- ### Data model shared by the scanner and the persistence layer -/

/-- `model.Tag`: a normalized (name, value) pair with a derived stable id.
`MediaFile.tags` below holds the flattened form produced by
`Tags.FlattenAll()`. -/
structure Tag where
  id : String
  name : String
  value : String
deriving DecidableEq, Repr

/-- `model.MediaFile` (the fields the verified operations use). -/
structure MediaFile where
  id : String
  pid : String
  libraryId : Nat
  folderId : String
  path : String
  missing : Bool
  createdAt : Int
  updatedAt : Int
  tags : List Tag
deriving DecidableEq, Repr

/-- `model.Library` (the fields the verified operations use). -/
structure Library where
  id : Nat
  lastScanStartedAt : Int
deriving DecidableEq, Repr

/-- An entry of `folderEntry.audioFiles` (an `fs.DirEntry`): `info = none`
models an `Info()` call that returns an error, `info = some t` a
successful call whose `ModTime()` is the instant `t`. -/
structure AudioFile where
  info : Option Int
deriving DecidableEq, Repr

/- ### Folder diff engine (`scanner2/phase_1_folders.go`, `processFolder`) -/

/-- `filepath.Join(entry.path, afPath)` for a clean directory path and a
bare file name. -/
def joinPath (dir p : String) : String := dir ++ "/" ++ p

/-- `slice.ToMap(mfs, ...)`: builds the Go map keyed on `mf.Path`.
Modelled as an association list; assigning a key removes any previous
binding (later rows overwrite earlier ones, as in a Go map). -/
def toMapByPath (mfs : List MediaFile) : List (String × MediaFile) :=
  mfs.foldl (fun m mf => m.filter (fun kv => kv.1 != mf.path) ++ [(mf.path, mf)]) []

/-- Go map index `dbTracks[afPath]`. -/
def lookupPath (p : String) (m : List (String × MediaFile)) : Option MediaFile :=
  (m.find? (fun kv => kv.1 == p)).map (·.2)

/-- Go `delete(dbTracks, afPath)`. -/
def erasePath (p : String) (m : List (String × MediaFile)) : List (String × MediaFile) :=
  m.filter (fun kv => kv.1 != p)

/-- The classification loop of `processFolder`: iterates over
`entry.audioFiles`, accumulating `filesToImport` and deleting each seen
path from the DB-track map.  A file is imported when it is not in the DB
or a full rescan is forced; otherwise its `Info()` is read (an error
aborts the whole folder with `return nil, err`) and the file is imported
when its modification time is strictly after the stored `UpdatedAt`.
Go map iteration order is unspecified; the embedding iterates the listing
in list order. -/
def diffLoop (fp : String) (fr : Bool) :
    List (String × AudioFile) → List String → List (String × MediaFile) →
    Except Unit (List String × List (String × MediaFile))
  | [], imports, dbT => Except.ok (imports, dbT)
  | (p, af) :: rest, imports, dbT =>
    match lookupPath p dbT with
    | none => diffLoop fp fr rest (imports ++ [joinPath fp p]) (erasePath p dbT)
    | some dbTrack =>
      if fr then diffLoop fp fr rest (imports ++ [joinPath fp p]) (erasePath p dbT)
      else
        match af.info with
        | none => Except.error ()
        | some t =>
          if dbTrack.updatedAt < t then
            diffLoop fp fr rest (imports ++ [joinPath fp p]) (erasePath p dbT)
          else diffLoop fp fr rest imports (erasePath p dbT)

/-- `filesBatchSize` used for batching file metadata extraction. -/
def filesBatchSize : Nat := 100

/-- Fuel-indexed chunking recursion (structural, so that concrete
instances evaluate); `chunksOf` below instantiates the fuel with the
list's length, which is never exhausted for a positive chunk size. -/
def chunksOfFuel (n : Nat) : Nat → List α → List (List α)
  | _, [] => []
  | 0, xs => [xs]
  | fuel + 1, x :: xs => (x :: xs.take (n - 1)) :: chunksOfFuel n fuel (xs.drop (n - 1))

/-- Modelled from the spec: `utils/slice.RangeByChunks` (not under `src/`)
partitions a list into consecutive fixed-size batches of at most `n`
elements and runs the callback once per batch; this is the underlying
chunk sequence. -/
def chunksOf (n : Nat) (xs : List α) : List (List α) :=
  chunksOfFuel n xs.length xs

/-- Go map assignment `uniqueTags[t.ID] = t`. -/
def upsertTag (t : Tag) (m : List (String × Tag)) : List (String × Tag) :=
  m.filter (fun kv => kv.1 != t.id) ++ [(t.id, t)]

/-- The chunk loop of `loadTagsFromFiles`.  Faithful to the source: the
callback ignores its `chunk` argument and calls
`entry.job.fs.ReadTags(toImport...)` with the WHOLE import list on every
iteration (source line 72).  On a `ReadTags` error the loop stops and the
values accumulated so far are returned together with the error. -/
def loadTagsLoop {I : Type} (readTags : List String → Except Unit (List (String × I)))
    (toMediaFile : String → I → MediaFile) (libId : Nat) (fid : String)
    (toImport : List String) :
    List (List String) → List MediaFile → List (String × Tag) →
    List MediaFile × List (String × Tag) × Option Unit
  | [], tracks, utags => (tracks, utags, none)
  | _chunk :: rest, tracks, utags =>
    match readTags toImport with
    | Except.error e => (tracks, utags, some e)
    | Except.ok allInfo =>
      let newTracks := allInfo.map (fun pi =>
        { toMediaFile pi.1 pi.2 with libraryId := libId, folderId := fid })
      let utags' := newTracks.foldl (fun m tr => tr.tags.foldl (fun m t => upsertTag t m) m) utags
      loadTagsLoop readTags toMediaFile libId fid toImport rest (tracks ++ newTracks) utags'

/-- `loadTagsFromFiles`: extracts tags for the files to import in batches
of `filesBatchSize`, mapping each raw result to a `MediaFile`
(`metadata.New(path, info).ToMediaFile()` is the abstract `toMediaFile`)
and deduplicating tags by id. -/
def loadTagsFromFiles {I : Type} (readTags : List String → Except Unit (List (String × I)))
    (toMediaFile : String → I → MediaFile) (libId : Nat) (fid : String)
    (toImport : List String) : List MediaFile × List Tag × Option Unit :=
  let r := loadTagsLoop readTags toMediaFile libId fid toImport
    (chunksOf filesBatchSize toImport) [] []
  (r.1, r.2.1.map (·.2), r.2.2)

/-- The sequence of path-list arguments handed to the Tag Extractor
(`fs.ReadTags`) by `loadTagsFromFiles`: one call per chunk of
`filesBatchSize`, each passing the whole `toImport` list, because the
closure ignores its `chunk` parameter (source line 71-72). -/
def extractorCallPaths (toImport : List String) : List (List String) :=
  (chunksOf filesBatchSize toImport).map (fun _ => toImport)

/-- How many times a path is passed to the Tag Extractor over one
`loadTagsFromFiles` run. -/
def timesPassedToExtractor (toImport : List String) (p : String) : Nat :=
  ((extractorCallPaths toImport).map (fun c => c.count p)).sum

/-- The per-folder scan result assembled by `processFolder`
(`folderEntry`'s fields written by this stage; `albums`/`artists` are nil
TODO stubs in the source). -/
structure FolderEntry where
  filesToImport : List String
  missingTracks : List MediaFile
  tracks : List MediaFile
  tags : List Tag
deriving DecidableEq, Repr

/-- `processFolder`: loads the folder's DB rows (the `db` argument; a
`GetByFolder` storage failure is external I/O outside this pure model),
classifies the live listing against them, leaves the unmatched DB rows as
`missingTracks`, and, when there are files to import, extracts and maps
their tags.  Faithful to the source, `entry.tracks`/`entry.tags` are
assigned before the extraction error is checked, and on such an error the
folder entry is returned with a nil error (the error is only logged). -/
def processFolder {I : Type} (readTags : List String → Except Unit (List (String × I)))
    (toMediaFile : String → I → MediaFile) (libId : Nat) (fid : String)
    (fp : String) (fr : Bool) (audioFiles : List (String × AudioFile))
    (db : List MediaFile) : Except Unit FolderEntry :=
  match diffLoop fp fr audioFiles [] (toMapByPath db) with
  | Except.error e => Except.error e
  | Except.ok (filesToImport, remaining) =>
    let entry : FolderEntry := ⟨filesToImport, remaining.map (·.2), [], []⟩
    if filesToImport.length > 0 then
      let r := loadTagsFromFiles readTags toMediaFile libId fid filesToImport
      Except.ok { entry with tracks := r.1, tags := r.2.1 }
    else Except.ok entry

/- ### `storagetest.FakeFS.ReadTags` -/

/-- The loop of `FakeFS.ReadTags`: parses each path in order into the
result map; a parse failure returns `nil, err` immediately, dropping the
results gathered so far and never attempting the remaining paths. -/
def readTagsFakeLoop {I : Type} (parseFile : String → Except Unit I) :
    List String → List (String × I) → Except Unit (List (String × I))
  | [], acc => Except.ok acc
  | file :: rest, acc =>
    match parseFile file with
    | Except.error e => Except.error e
    | Except.ok p => readTagsFakeLoop parseFile rest (acc.filter (fun kv => kv.1 != file) ++ [(file, p)])

/-- `FakeFS.ReadTags(paths...)`. -/
def readTagsFake {I : Type} (parseFile : String → Except Unit I) (paths : List String) :
    Except Unit (List (String × I)) :=
  readTagsFakeLoop parseFile paths []

/- ### `persistence.mediaFileRepository` -/

/-- `GetMissingAndMatching(libId)`: the sub-select collects the pids of
the rows of library `libId` flagged missing; the outer select keeps every
`media_file` row (inner-joined to its own `library` row) whose pid is in
that set and which is missing or was created after its own library's
`last_scan_started_at`.  The SQL `ORDER BY pid` and the `GROUP BY id` of
`selectMediaFile` do not affect which rows qualify and are not modelled. -/
def getMissingAndMatching (libs : List Library) (mfs : List MediaFile) (libId : Nat) :
    List MediaFile :=
  let missingPids := (mfs.filter (fun mf => mf.missing && mf.libraryId == libId)).map (·.pid)
  mfs.filter (fun mf =>
    match libs.find? (fun l => l.id == mf.libraryId) with
    | none => false
    | some l => missingPids.contains mf.pid &&
        (mf.missing || decide (l.lastScanStartedAt < mf.createdAt)))

/-- One chunked UPDATE of `MarkMissing`: sets `missing` and `updated_at`
on exactly the rows whose id is in the chunk and whose `missing` flag is
currently the negation of the target value. -/
def updateMissingChunk (target : Bool) (now : Int) (chunk : List String)
    (db : List MediaFile) : List MediaFile :=
  db.map (fun r =>
    if chunk.contains r.id && r.missing == !target then
      { r with missing := target, updatedAt := now }
    else r)

/-- `MarkMissing(missing, mfs...)`: maps the rows to their ids and runs
the UPDATE in chunks of 200 via `RangeByChunks` (modelled from the spec,
see `chunksOf`).  `executeSQL` failures are external storage I/O outside
this pure model; note that the source's `c == 0` branch (no row updated)
returns the current `err`, which is nil there, i.e. success. -/
def markMissing (target : Bool) (mfs : List MediaFile) (now : Int)
    (db : List MediaFile) : Except Unit (List MediaFile) :=
  let ids := mfs.map (·.id)
  Except.ok ((chunksOf 200 ids).foldl
    (fun db chunk => updateMissingChunk target now chunk db) db)

/- ### Metadata mapper (`model/metadata/map_participations.go`) -/

/-- `model.TagName` is a string type in the source. -/
abbrev TagName := String

/-- `consts.UnknownArtist` (constant defined outside `src/`; only its
identity matters to the mapper). -/
def unknownArtist : String := "[Unknown Artist]"

/- The `TagName` constants referenced by the mapper.  Their values live in
the tag-name table outside `src/`; distinct constants are given distinct
strings, which is all the mapper depends on. -/

def TrackArtist : TagName := "artist"

def TrackArtists : TagName := "artists"

def TrackArtistSort : TagName := "artistsort"

def TrackArtistsSort : TagName := "artistssort"

def MusicBrainzArtistID : TagName := "musicbrainz_artistid"

def AlbumArtist : TagName := "albumartist"

def AlbumArtists : TagName := "albumartists"

def AlbumArtistSort : TagName := "albumartistsort"

def AlbumArtistsSort : TagName := "albumartistssort"

def MusicBrainzAlbumArtistID : TagName := "musicbrainz_albumartistid"

def Composer : TagName := "composer"

def ComposerSort : TagName := "composersort"

def Conductor : TagName := "conductor"

def Lyricist : TagName := "lyricist"

def Arranger : TagName := "arranger"

def Director : TagName := "director"

def Producer : TagName := "producer"

def Engineer : TagName := "engineer"

def Mixer : TagName := "mixer"

def Remixer : TagName := "remixer"

def DJMixer : TagName := "djmixer"

/-- A raw metadata value.  `strings` is `md.Strings` (the values of a
tag); `artistID` (`md.artistID`) and `sanitize`
(`str.SanitizeFieldForSortingNoArticle`) are pure helpers defined outside
`src/`, carried as components so the mapper's dependence on them is
explicit. -/
structure Metadata where
  strings : TagName → List String
  artistID : String → String
  sanitize : String → String

/-- `md.getTags(tagNames...)`: the values of the first tag name that has
any, else nil. -/
def Metadata.getTags (md : Metadata) : List TagName → List String
  | [] => []
  | t :: ts =>
    match md.strings t with
    | [] => md.getTags ts
    | vs => vs

/-- `md.parseArtist(names, sorts, mbids)`: one `Artist` per name, with the
sort name and MusicBrainz id taken positionally when present (Go leaves
the zero value `""` otherwise, which `List.getD` reproduces). -/
def Metadata.parseArtist (md : Metadata) (names sorts mbids : List String) : List Artist :=
  names.enum.map (fun iname =>
    { id := md.artistID iname.2
      name := iname.2
      orderArtistName := md.sanitize iname.2
      sortArtistName := sorts.getD iname.1 ""
      mbzArtistID := mbids.getD iname.1 "" })

/-- `md.parseArtists(name, names, sort, sorts, mbid)`: multi-valued tags
win over single-valued ones; with no name values at all, the sentinel
`consts.UnknownArtist` is substituted. -/
def Metadata.parseArtists (md : Metadata) (name names sort sorts mbid : TagName) :
    List Artist :=
  let nameValues := md.getTags [names, name]
  let sortValues := md.getTags [sorts, sort]
  let mbids := md.strings mbid
  let nameValues' := if nameValues.isEmpty then [unknownArtist] else nameValues
  md.parseArtist nameValues' sortValues mbids

/-- The per-role artist-tag table built by `roleMappings` (a Go map
literal; iterated in unspecified order there, but the roles are pairwise
distinct so the resulting participations do not depend on the order, and
the embedding fixes the textual order). -/
structure ArtistInfo where
  name : TagName
  sort : TagName := ""
  mbid : TagName := ""
deriving DecidableEq, Repr

def roleMappings : List (Role × ArtistInfo) :=
  [ (Role.composer, { name := Composer, sort := ComposerSort }),
    (Role.conductor, { name := Conductor }),
    (Role.lyricist, { name := Lyricist }),
    (Role.arranger, { name := Arranger }),
    (Role.director, { name := Director }),
    (Role.producer, { name := Producer }),
    (Role.engineer, { name := Engineer }),
    (Role.mixer, { name := Mixer }),
    (Role.remixer, { name := Remixer }),
    (Role.djmixer, { name := DJMixer }) ]

/-- The source's `for _, a := range artists { participations.Add(a, role) }`
loops, adding the artists one at a time under the role. -/
def addAll (p : Participations) (role : Role) (artists : List Artist) : Participations :=
  artists.foldl (fun p a => p.add role [a]) p

/-- `md.mapParticipations()`: track artists (with the Unknown Artist
substitution inside `parseArtists`), album artists (falling back to the
track artists when the parsed album-artist list is exactly one artist
named `consts.UnknownArtist`), then the table-driven secondary roles. -/
def Metadata.mapParticipations (md : Metadata) : Participations :=
  let artists := md.parseArtists TrackArtist TrackArtists TrackArtistSort
    TrackArtistsSort MusicBrainzArtistID
  let p := addAll Participations.empty Role.artist artists
  let albumArtists0 := md.parseArtists AlbumArtist AlbumArtists AlbumArtistSort
    AlbumArtistsSort MusicBrainzAlbumArtistID
  let albumArtists :=
    match albumArtists0 with
    | [a] => if a.name = unknownArtist then artists else albumArtists0
    | _ => albumArtists0
  let p := addAll p Role.albumArtist albumArtists
  roleMappings.foldl (fun p ri =>
    addAll p ri.1 (md.parseArtist (md.getTags [ri.2.name]) (md.getTags [ri.2.sort])
      (md.strings ri.2.mbid))) p

/- ### Specification-side predicates (the claims' wording) -/

/-- The condition under which `processFolder`'s classification loop puts
a listing entry into `filesToImport`, read off the current DB-track map:
no DB binding for the path, or a forced full rescan, or a read
modification time strictly after the stored row's `updatedAt`. -/
def importCond (fr : Bool) (dbT : List (String × MediaFile)) (pa : String × AudioFile) : Bool :=
  match lookupPath pa.1 dbT with
  | none => true
  | some mf =>
    fr ||
      (match pa.2.info with
       | some t => decide (mf.updatedAt < t)
       | none => false)

/-- The condition under which the classification loop aborts on a
listing entry: the path is in the DB-track map, no full rescan is forced,
and reading the entry's file info fails. -/
def badInfo (fr : Bool) (dbT : List (String × MediaFile)) (pa : String × AudioFile) : Bool :=
  match lookupPath pa.1 dbT with
  | none => false
  | some _ =>
    !fr &&
      (match pa.2.info with
       | none => true
       | some _ => false)

/-- Claim C1's wording for a successful folder diff: a listed file is
imported iff its path has no DB row, or the full-rescan flag is set, or
its modification time is strictly after the stored row's `updatedAt`;
only listed files are imported; a DB row is a missing candidate iff no
listed file has its path; and missing candidates come from the DB rows. -/
def diffClassifies (fp : String) (fr : Bool) (audioFiles : List (String × AudioFile))
    (db : List MediaFile) (res : FolderEntry) : Prop :=
  (∀ pa ∈ audioFiles,
      (joinPath fp pa.1 ∈ res.filesToImport ↔
        (∀ mf ∈ db, mf.path ≠ pa.1) ∨ fr = true ∨
          ∃ mf ∈ db, mf.path = pa.1 ∧ ∃ t, pa.2.info = some t ∧ mf.updatedAt < t))
    ∧ (∀ q ∈ res.filesToImport, ∃ pa ∈ audioFiles, q = joinPath fp pa.1)
    ∧ (∀ mf ∈ db, (mf ∈ res.missingTracks ↔ mf.path ∉ audioFiles.map Prod.fst))
    ∧ (∀ mf ∈ res.missingTracks, mf ∈ db)

/-- Claim C10's wording: the diff classification partitions the folder —
no missing candidate's path is also queued for import, and every DB row
is classified exactly one way (missing iff its path has no on-disk
file). -/
def diffPartitions (fp : String) (audioFiles : List (String × AudioFile))
    (db : List MediaFile) (res : FolderEntry) : Prop :=
  (∀ mf ∈ res.missingTracks, joinPath fp mf.path ∉ res.filesToImport)
    ∧ (∀ mf ∈ db, (mf ∈ res.missingTracks ↔ mf.path ∉ audioFiles.map Prod.fst))
    ∧ (∀ mf ∈ res.missingTracks, mf ∈ db)

/-- The row-level effect claimed for `MarkMissing`: a row is rewritten
(missing flag set to the target, `updated_at` refreshed) exactly when its
id is in the given identifier set and its flag currently differs from the
target; every other row is untouched. -/
def markedRow (target : Bool) (now : Int) (ids : List String) (r : MediaFile) : MediaFile :=
  if ids.contains r.id && r.missing == !target then
    { r with missing := target, updatedAt := now }
  else r

/- ### Concrete fixtures used by counterexamples and witnesses -/

/-- The zero `model.MediaFile` value, adjusted per fixture. -/
def mfZero : MediaFile := ⟨"", "", 0, "", "", false, 0, 0, []⟩

/-- A trivial extractor: succeeds with an empty result map. -/
def readTagsNone : List String → Except Unit (List (String × Unit)) :=
  fun _ => Except.ok []

/-- An extractor that always fails (folder-level extraction failure). -/
def readTagsErr : List String → Except Unit (List (String × Unit)) :=
  fun _ => Except.error ()

/-- A trivial raw-tags-to-entity mapping for fixtures. -/
def toMediaFileTriv : String → Unit → MediaFile := fun _ _ => mfZero

/-- C4 fixture listing: reading `a.mp3`'s file info fails, `b.mp3` is a
new on-disk file. -/
def c4Audio : List (String × AudioFile) := [("a.mp3", ⟨none⟩), ("b.mp3", ⟨some 5⟩)]

/-- C4 fixture DB snapshot: `a.mp3` has a stored row. -/
def c4Db : List MediaFile := [{ mfZero with id := "t1", path := "a.mp3", updatedAt := 0 }]

/-- C1/C10 fixture listing: one new file, one unchanged file. -/
def c1Audio : List (String × AudioFile) := [("new.mp3", ⟨some 10⟩), ("old.mp3", ⟨some 1⟩)]

/-- C1/C10 fixture DB row that is still on disk and unchanged. -/
def c1Old : MediaFile := { mfZero with id := "t1", path := "old.mp3", updatedAt := 5 }

/-- C1/C10 fixture DB row whose file is gone. -/
def c1Gone : MediaFile := { mfZero with id := "t2", path := "gone.mp3", updatedAt := 3 }

def c1Db : List MediaFile := [c1Old, c1Gone]

/-- The folder entry `processFolder` produces on the C1/C10 fixture. -/
def c1Res : FolderEntry := ⟨["/m/new.mp3"], [c1Gone], [], []⟩

/-- C6 fixture listing: one new file, so extraction runs (and fails). -/
def c6Audio : List (String × AudioFile) := [("a.mp3", ⟨some 3⟩)]

/-- C5 fixture parser: fails exactly on the path "bad". -/
def parseEx : String → Except Unit Unit :=
  fun s => if s = "bad" then Except.error () else Except.ok ()

/-- C3 fixture: 101 distinct import paths, one more than
`filesBatchSize`. -/
def paths101 : List String := (List.range 101).map (fun i => "f" ++ toString i)

/-- C2 fixture libraries. -/
def exLibs : List Library := [⟨1, 0⟩, ⟨2, 0⟩]

/-- C2 fixture: a missing row of library 1. -/
def exA : MediaFile := { mfZero with id := "a", pid := "p", libraryId := 1, missing := true }

/-- C2 fixture: a missing row of library 2 sharing the pid. -/
def exB : MediaFile := { mfZero with id := "b", pid := "p", libraryId := 2, missing := true }

/-- C7 witness metadata: no tags at all. -/
def md0 : Metadata := ⟨fun _ => [], fun s => s, fun s => s⟩

/-! ## Helper lemmas about `addArtists` -/

theorem addArtists_nil (cur : List Artist) : addArtists cur [] = cur := rfl

theorem addArtists_cons (cur : List Artist) (a : Artist) (new : List Artist) :
    addArtists cur (a :: new) =
      addArtists (if (cur.map Artist.id).contains a.id then cur else cur ++ [a]) new := by
  simp [addArtists]

/-- Folding in artists whose IDs are all already present leaves the
accumulator unchanged. -/
theorem addArtists_subset (new : List Artist) :
    ∀ cur : List Artist, (∀ a ∈ new, a.id ∈ cur.map Artist.id) → addArtists cur new = cur := by
  induction new with
  | nil => intro cur _; rfl
  | cons a new ih =>
    intro cur h
    rw [addArtists_cons]
    have ha : (cur.map Artist.id).contains a.id = true := by
      simp only [List.contains_iff_exists_mem_beq]
      exact ⟨a.id, h a (by simp), by simp⟩
    rw [if_pos ha]
    exact ih cur (fun b hb => h b (by simp [hb]))

/-- Merging a participation list into itself is the identity. -/
theorem addArtists_self (l : List Artist) : addArtists l l = l :=
  addArtists_subset l l (fun _ ha => List.mem_map_of_mem Artist.id ha)

/-- The IDs of `addArtists cur new` are, as a set, the union of the IDs
of `cur` and of `new`. -/
theorem mem_map_id_addArtists (new : List Artist) :
    ∀ (cur : List Artist) (x : String),
      x ∈ (addArtists cur new).map Artist.id ↔ x ∈ cur.map Artist.id ∨ x ∈ new.map Artist.id := by
  induction new with
  | nil => intro cur x; simp [addArtists_nil]
  | cons a new ih =>
    intro cur x
    rw [addArtists_cons]
    by_cases hc : (cur.map Artist.id).contains a.id = true
    · rw [if_pos hc]
      rw [ih cur x]
      have haid : a.id ∈ cur.map Artist.id := by
        simpa [List.contains_iff_exists_mem_beq] using hc
      constructor
      · rintro (h | h)
        · exact Or.inl h
        · exact Or.inr (by simp [h])
      · rintro (h | h)
        · exact Or.inl h
        · rcases (by simpa using h : x = a.id ∨ x ∈ new.map Artist.id) with h' | h'
          · exact Or.inl (h' ▸ haid)
          · exact Or.inr h'
    · rw [if_neg hc]
      rw [ih (cur ++ [a]) x]
      simp only [List.map_append, List.map_cons, List.map_nil, List.mem_append,
        List.mem_singleton, List.mem_cons]
      tauto

/-- C8.  Participations merge law: for every role the artist-identifier
set of `merge(P1,P2)` equals that of `merge(P2,P1)`, and
`merge(P1,P1) = P1`. -/
theorem participations_merge_comm_idem (p1 p2 : Participations) :
    (∀ (role : Role) (x : String),
        x ∈ ((p1.merge p2) role).map Artist.id ↔ x ∈ ((p2.merge p1) role).map Artist.id)
    ∧ p1.merge p1 = p1 := by
  constructor
  · intro role x
    show x ∈ (addArtists (p1 role) (p2 role)).map Artist.id ↔
      x ∈ (addArtists (p2 role) (p1 role)).map Artist.id
    rw [mem_map_id_addArtists, mem_map_id_addArtists]
    tauto
  · funext r
    exact addArtists_self (p1 r)

/-! ## Helper lemmas about chunking and `MarkMissing` -/

theorem chunksOfFuel_flatten (n : Nat) :
    ∀ (fuel : Nat) (xs : List α), xs.length ≤ fuel → (chunksOfFuel n fuel xs).flatten = xs := by
  intro fuel
  induction fuel with
  | zero =>
    intro xs h
    cases xs with
    | nil => rfl
    | cons x t => simp at h
  | succ fuel ih =>
    intro xs h
    cases xs with
    | nil => rfl
    | cons x t =>
      simp only [chunksOfFuel, List.flatten_cons]
      simp only [List.length_cons] at h
      rw [ih (t.drop (n - 1)) (by simp only [List.length_drop]; omega)]
      simp [List.take_append_drop]

theorem chunksOf_flatten (n : Nat) (xs : List α) : (chunksOf n xs).flatten = xs :=
  chunksOfFuel_flatten n xs.length xs le_rfl

theorem beq_not_self (b : Bool) : (b == !b) = false := by cases b <;> rfl

theorem contains_append (l1 l2 : List String) (x : String) :
    (l1 ++ l2).contains x = (l1.contains x || l2.contains x) := by
  simp [List.elem_eq_mem]

/-- Applying one chunk's UPDATE and then the marking for the remaining
ids equals the marking for the combined id list, row by row. -/
theorem markedRow_chunk (target : Bool) (now : Int) (c cf : List String) (r : MediaFile) :
    markedRow target now cf
      (if c.contains r.id && r.missing == !target then
        { r with missing := target, updatedAt := now }
      else r)
      = markedRow target now (c ++ cf) r := by
  by_cases h1 : (c.contains r.id && (r.missing == !target)) = true
  · rw [if_pos h1]
    have hc := (Bool.and_eq_true_iff.mp h1).1
    have hm := (Bool.and_eq_true_iff.mp h1).2
    have hrhs : ((c ++ cf).contains r.id && (r.missing == !target)) = true := by
      rw [contains_append, hc, hm]
      rfl
    have hlhs : (cf.contains ({ r with missing := target, updatedAt := now } : MediaFile).id
        && (({ r with missing := target, updatedAt := now } : MediaFile).missing == !target))
          = false := by
      show (cf.contains r.id && (target == !target)) = false
      rw [beq_not_self, Bool.and_false]
    unfold markedRow
    rw [if_neg (by rw [hlhs]; exact Bool.false_ne_true), if_pos hrhs]
  · have h1' : (c.contains r.id && (r.missing == !target)) = false := by simpa using h1
    rw [if_neg h1]
    by_cases h2 : (cf.contains r.id && (r.missing == !target)) = true
    · have hrhs : ((c ++ cf).contains r.id && (r.missing == !target)) = true := by
        rw [contains_append, (Bool.and_eq_true_iff.mp h2).1, (Bool.and_eq_true_iff.mp h2).2,
          Bool.or_true]
        rfl
      unfold markedRow
      rw [if_pos h2, if_pos hrhs]
    · have h2' : (cf.contains r.id && (r.missing == !target)) = false := by simpa using h2
      have hrhs : ((c ++ cf).contains r.id && (r.missing == !target)) = false := by
        rw [contains_append]
        cases hcc : c.contains r.id <;> cases hcf : cf.contains r.id <;>
          cases hm : (r.missing == !target) <;> simp_all
      unfold markedRow
      rw [if_neg (by rw [h2']; exact Bool.false_ne_true),
        if_neg (by rw [hrhs]; exact Bool.false_ne_true)]

/-- The chunked UPDATE loop of `MarkMissing` has the same effect as a
single row-wise pass over the joined id list. -/
theorem foldl_updateMissingChunk (target : Bool) (now : Int) :
    ∀ (cs : List (List String)) (db : List MediaFile),
      cs.foldl (fun db chunk => updateMissingChunk target now chunk db) db
        = db.map (markedRow target now cs.flatten) := by
  intro cs
  induction cs with
  | nil =>
    intro db
    exact (List.map_id'' (fun r => rfl) db).symm
  | cons c cs ih =>
    intro db
    simp only [List.foldl_cons, List.flatten_cons]
    rw [ih (updateMissingChunk target now c db)]
    rw [updateMissingChunk, List.map_map]
    apply List.map_congr_left
    intro r _
    exact markedRow_chunk target now c cs.flatten r

/-- `markedRow` is idempotent row by row. -/
theorem markedRow_idem (target : Bool) (now1 now2 : Int) (ids : List String) (r : MediaFile) :
    markedRow target now2 ids (markedRow target now1 ids r) = markedRow target now1 ids r := by
  by_cases h : (ids.contains r.id && (r.missing == !target)) = true
  · unfold markedRow
    rw [if_pos h]
    have hlhs : (ids.contains ({ r with missing := target, updatedAt := now1 } : MediaFile).id
        && (({ r with missing := target, updatedAt := now1 } : MediaFile).missing == !target))
          = false := by
      show (ids.contains r.id && (target == !target)) = false
      rw [beq_not_self, Bool.and_false]
    rw [if_neg (by rw [hlhs]; exact Bool.false_ne_true)]
  · unfold markedRow
    rw [if_neg h, if_neg h]

/-- C9.  `MarkMissing` updates exactly the rows of the identifier set
whose flag currently differs from the target (setting flag and
`updated_at`), succeeds, and invoking it again with the same arguments
returns success and leaves the database state unchanged. -/
theorem markMissing_retry_safe (target : Bool) (mfs : List MediaFile) (now1 now2 : Int)
    (db : List MediaFile) :
    markMissing target mfs now1 db
        = Except.ok (db.map (markedRow target now1 (mfs.map (·.id))))
    ∧ markMissing target mfs now2 (db.map (markedRow target now1 (mfs.map (·.id))))
        = Except.ok (db.map (markedRow target now1 (mfs.map (·.id)))) := by
  constructor
  · simp only [markMissing]
    rw [foldl_updateMissingChunk, chunksOf_flatten]
  · simp only [markMissing]
    rw [foldl_updateMissingChunk, chunksOf_flatten, List.map_map]
    congr 1
    apply List.map_congr_left
    intro r _
    exact markedRow_idem target now1 now2 (mfs.map (·.id)) r

/-! ## C3: tag-extraction batching -/

/-- C3.  Evaluates the batching slip of `loadTagsFromFiles` at 101 import
paths: `RangeByChunks` produces two batches of sizes 100 and 1, but the
callback passes the whole list to the extractor on each iteration, so
both extractor calls receive all 101 paths and the path "f0" is passed
twice, not once. -/
theorem extractor_batching_bug :
    filesBatchSize = 100
    ∧ paths101.length = 101
    ∧ (chunksOf filesBatchSize paths101).map List.length = [100, 1]
    ∧ (extractorCallPaths paths101).map List.length = [101, 101]
    ∧ timesPassedToExtractor paths101 "f0" = 2 :=
  ⟨rfl, by decide, by decide, rfl, by decide⟩

/-! ## C5: per-path extractor failure isolation -/

/-- C5 counterexample.  With a batch of three paths whose middle path
fails to parse, `FakeFS.ReadTags` returns the error: the remaining path
"good2" is never attempted and no result map is returned, contradicting
the claim that the other entries of the batch are still attempted and
returned. -/
theorem readTags_batch_not_isolated :
    readTagsFake parseEx ["good1", "bad", "good2"] = Except.error ()
    ∧ ¬ ∃ m, readTagsFake parseEx ["good1", "bad", "good2"] = Except.ok m
        ∧ ("good2", ()) ∈ m := by
  refine ⟨rfl, ?_⟩
  rintro ⟨m, hm, -⟩
  rw [show readTagsFake parseEx ["good1", "bad", "good2"] = Except.error () from rfl] at hm
  exact Except.noConfusion hm

/-- A parse failure anywhere in the batch makes the `ReadTags` loop
return that error. -/
theorem readTagsFakeLoop_error {I : Type} (parseFile : String → Except Unit I) :
    ∀ (paths : List String) (acc : List (String × I)) (p : String), p ∈ paths →
      parseFile p = Except.error () → readTagsFakeLoop parseFile paths acc = Except.error () := by
  intro paths
  induction paths with
  | nil => intro acc p hp _; exact absurd hp (List.not_mem_nil p)
  | cons q rest ih =>
    intro acc p hp he
    cases hq : parseFile q with
    | error e =>
      cases e
      simp only [readTagsFakeLoop, hq]
    | ok v =>
      rcases List.mem_cons.mp hp with rfl | hp'
      · rw [hq] at he
        exact absurd he (by simp)
      · simp only [readTagsFakeLoop, hq]
        exact ih _ p hp' he

/-- C5 amended.  When extraction fails for one path of the batch,
`FakeFS.ReadTags` aborts the whole batch: it returns the error and the
remaining paths are not attempted. -/
theorem readTags_error_aborts_batch {I : Type} (parseFile : String → Except Unit I)
    (paths : List String) (p : String) (hp : p ∈ paths)
    (he : parseFile p = Except.error ()) :
    readTagsFake parseFile paths = Except.error () :=
  readTagsFakeLoop_error parseFile paths [] p hp he

/-- Witness for the amended C5 at a concrete batch. -/
theorem readTags_error_aborts_batch_witness :
    "bad" ∈ ["good1", "bad"] ∧ parseEx "bad" = Except.error ()
    ∧ readTagsFake parseEx ["good1", "bad"] = Except.error () :=
  ⟨by decide, rfl, readTags_error_aborts_batch parseEx ["good1", "bad"] "bad" (by decide) rfl⟩

/-! ## C2: `GetMissingAndMatching` -/

/-- C2 counterexample.  Two libraries each hold a missing row with the
same pid; `GetMissingAndMatching 1` returns library 2's row as well,
because the outer query never filters on `library_id = libId`. -/
theorem getMissingAndMatching_leaks_other_library :
    exB ∈ getMissingAndMatching exLibs [exA, exB] 1 ∧ exB.libraryId ≠ 1 :=
  ⟨by decide, by decide⟩

/-- C2 amended.  `GetMissingAndMatching(libId)` returns exactly the rows
(of any library) whose pid equals the pid of some missing row of library
`libId`, and which are themselves missing or were created after their own
library's last-scan-started timestamp; rows without a library row are
dropped by the join. -/
theorem getMissingAndMatching_spec (libs : List Library) (mfs : List MediaFile)
    (libId : Nat) (mf : MediaFile) (hnodup : (libs.map Library.id).Nodup) :
    mf ∈ getMissingAndMatching libs mfs libId ↔
      mf ∈ mfs
      ∧ (∃ m ∈ mfs, m.missing = true ∧ m.libraryId = libId ∧ m.pid = mf.pid)
      ∧ (∃ l ∈ libs, l.id = mf.libraryId
          ∧ (mf.missing = true ∨ l.lastScanStartedAt < mf.createdAt)) := by
  unfold getMissingAndMatching
  rw [List.mem_filter]
  have hpid :
      (((mfs.filter (fun m => m.missing && m.libraryId == libId)).map (·.pid)).contains mf.pid)
          = true
        ↔ (∃ m ∈ mfs, m.missing = true ∧ m.libraryId = libId ∧ m.pid = mf.pid) := by
    simp only [List.elem_eq_mem, decide_eq_true_eq, List.mem_map, List.mem_filter,
      Bool.and_eq_true_iff, beq_iff_eq]
    constructor
    · rintro ⟨m, ⟨hm, hmiss, hlib⟩, hpid⟩
      exact ⟨m, hm, hmiss, hlib, hpid⟩
    · rintro ⟨m, hm, hmiss, hlib, hpid⟩
      exact ⟨m, ⟨hm, hmiss, hlib⟩, hpid⟩
  cases hfind : libs.find? (fun l => l.id == mf.libraryId) with
  | none =>
    simp only [hfind]
    constructor
    · rintro ⟨-, h⟩
      exact absurd h (by simp)
    · rintro ⟨-, -, l, hl, hlid, -⟩
      have := List.find?_eq_none.mp hfind l hl
      simp [hlid] at this
  | some l =>
    have hl : l ∈ libs := List.mem_of_find?_eq_some hfind
    have hlid : l.id = mf.libraryId := by
      have := List.find?_some hfind
      simpa [beq_iff_eq] using this
    simp only [hfind]
    constructor
    · rintro ⟨hmem, hcond⟩
      rw [Bool.and_eq_true_iff] at hcond
      refine ⟨hmem, hpid.mp hcond.1, l, hl, hlid, ?_⟩
      rcases Bool.or_eq_true_iff.mp hcond.2 with h | h
      · exact Or.inl h
      · exact Or.inr (by simpa using h)
    · rintro ⟨hmem, hex, l', hl', hlid', hor⟩
      have hll : l' = l :=
        List.inj_on_of_nodup_map hnodup hl' hl (by rw [hlid, hlid'])
      refine ⟨hmem, ?_⟩
      rw [Bool.and_eq_true_iff]
      refine ⟨hpid.mpr hex, ?_⟩
      rw [Bool.or_eq_true_iff]
      rcases hor with h | h
      · exact Or.inl h
      · exact Or.inr (by subst hll; simpa using h)

/-- Witness for the amended C2 at the concrete fixture. -/
theorem getMissingAndMatching_spec_witness :
    (exLibs.map Library.id).Nodup
    ∧ (exA ∈ getMissingAndMatching exLibs [exA, exB] 1 ↔
        exA ∈ [exA, exB]
        ∧ (∃ m ∈ [exA, exB], m.missing = true ∧ m.libraryId = 1 ∧ m.pid = exA.pid)
        ∧ (∃ l ∈ exLibs, l.id = exA.libraryId
            ∧ (exA.missing = true ∨ l.lastScanStartedAt < exA.createdAt))) :=
  ⟨by decide, getMissingAndMatching_spec exLibs [exA, exB] 1 exA (by decide)⟩

/-! ## Helper lemmas about the folder diff engine -/

theorem bne_eq_true_of_ne {q p : String} (h : q ≠ p) : (q != p) = true := by
  simpa using h

theorem find?_erasePath_ne (p q : String) (h : q ≠ p) :
    ∀ m : List (String × MediaFile),
      (erasePath p m).find? (fun kv => kv.1 == q) = m.find? (fun kv => kv.1 == q) := by
  intro m
  induction m with
  | nil => rfl
  | cons kv m ih =>
    by_cases hp : kv.1 = p
    · have h1 : (kv.1 != p) = false := by simp [hp]
      have h2 : (kv.1 == q) = false := by
        rw [hp]
        simpa using fun hq => h hq.symm
      simp only [erasePath, List.filter_cons, h1, Bool.false_eq_true, if_false,
        List.find?_cons, h2, cond_false]
      exact ih
    · have h1 : (kv.1 != p) = true := bne_eq_true_of_ne hp
      simp only [erasePath, List.filter_cons, h1, if_true, List.find?_cons]
      cases hq : (kv.1 == q) with
      | true => rfl
      | false => exact ih

theorem lookupPath_erasePath_ne (p q : String) (h : q ≠ p) (m : List (String × MediaFile)) :
    lookupPath q (erasePath p m) = lookupPath q m := by
  unfold lookupPath
  rw [find?_erasePath_ne p q h m]

theorem erasePath_of_lookup_none (p : String) (m : List (String × MediaFile))
    (h : lookupPath p m = none) : erasePath p m = m := by
  have hf : m.find? (fun kv => kv.1 == p) = none := by
    unfold lookupPath at h
    cases hfind : m.find? (fun kv => kv.1 == p) with
    | none => rfl
    | some kv => rw [hfind] at h; exact absurd h (by simp)
  apply List.filter_eq_self.mpr
  intro kv hkv
  have := List.find?_eq_none.mp hf kv hkv
  simpa using this

theorem importCond_erasePath (fr : Bool) (p : String) (dbT : List (String × MediaFile))
    (pa : String × AudioFile) (h : pa.1 ≠ p) :
    importCond fr (erasePath p dbT) pa = importCond fr dbT pa := by
  unfold importCond
  rw [lookupPath_erasePath_ne p pa.1 h dbT]

theorem badInfo_erasePath (fr : Bool) (p : String) (dbT : List (String × MediaFile))
    (pa : String × AudioFile) (h : pa.1 ≠ p) :
    badInfo fr (erasePath p dbT) pa = badInfo fr dbT pa := by
  unfold badInfo
  rw [lookupPath_erasePath_ne p pa.1 h dbT]

theorem contains_cons_of_ne (ks : List String) (p q : String) (h : (q == p) = false) :
    (p :: ks).contains q = ks.contains q := by
  simp [List.elem_eq_mem, List.mem_cons, (by simpa using h : q ≠ p)]

theorem not_contains_cons (p q : String) (ks : List String) :
    (!((p :: ks).contains q)) = ((q != p) && !(ks.contains q)) := by
  by_cases h : q = p <;> by_cases h2 : q ∈ ks <;> simp [h, h2, List.elem_eq_mem]

/-- Erasing the head key and keeping the keys outside `restks` equals
keeping the keys outside `p :: restks`. -/
theorem rem_filter_step (p : String) (restks : List String) (dbT : List (String × MediaFile)) :
    (erasePath p dbT).filter (fun kv => !(restks.contains kv.1))
      = dbT.filter (fun kv => !((p :: restks).contains kv.1)) := by
  unfold erasePath
  rw [List.filter_filter]
  apply List.filter_congr
  intro kv _
  rw [not_contains_cons, Bool.and_comm]

/-- On a folder whose listing triggers no file-info failure, the
classification loop returns: the imports accumulated so far followed by
the entries satisfying the import condition (joined to the folder path),
and the DB-track map restricted to the paths not on disk. -/
theorem diffLoop_ok_of_noBad (fp : String) (fr : Bool) :
    ∀ (files : List (String × AudioFile)) (im0 : List String) (dbT : List (String × MediaFile)),
      (files.map Prod.fst).Nodup →
      (∀ pa ∈ files, badInfo fr dbT pa = false) →
      diffLoop fp fr files im0 dbT =
        Except.ok (im0 ++ (files.filter (importCond fr dbT)).map (fun pa => joinPath fp pa.1),
          dbT.filter (fun kv => !((files.map Prod.fst).contains kv.1))) := by
  intro files
  induction files with
  | nil =>
    intro im0 dbT _ _
    simp [diffLoop]
  | cons pa0 rest ih =>
    obtain ⟨p, af⟩ := pa0
    intro im0 dbT hnd hnb
    have hnd2 : (p :: rest.map Prod.fst).Nodup := by simpa using hnd
    have hnds := List.nodup_cons.mp hnd2
    have hp : p ∉ rest.map Prod.fst := hnds.1
    have hnd' : (rest.map Prod.fst).Nodup := hnds.2
    have hne : ∀ pa ∈ rest, pa.1 ≠ p := by
      intro pa hpa he
      exact hp (he ▸ List.mem_map_of_mem Prod.fst hpa)
    have hbhead := hnb (p, af) (List.mem_cons_self _ _)
    have hnb' : ∀ pa ∈ rest, badInfo fr (erasePath p dbT) pa = false := by
      intro pa hpa
      rw [badInfo_erasePath fr p dbT pa (hne pa hpa)]
      exact hnb pa (List.mem_cons_of_mem _ hpa)
    have hfiltr :
        rest.filter (importCond fr (erasePath p dbT)) = rest.filter (importCond fr dbT) :=
      List.filter_congr (fun pa hpa => importCond_erasePath fr p dbT pa (hne pa hpa))
    have hrem := rem_filter_step p (rest.map Prod.fst) dbT
    simp only [List.map_cons]
    cases hlk : lookupPath p dbT with
    | none =>
      have hic : importCond fr dbT (p, af) = true := by
        simp [importCond, hlk]
      have hstep : diffLoop fp fr ((p, af) :: rest) im0 dbT
          = diffLoop fp fr rest (im0 ++ [joinPath fp p]) (erasePath p dbT) := by
        simp [diffLoop, hlk]
      rw [hstep, ih (im0 ++ [joinPath fp p]) (erasePath p dbT) hnd' hnb', hfiltr,
        List.filter_cons_of_pos hic, hrem]
      simp [List.append_assoc]
    | some dbTrack =>
      by_cases hfr : fr = true
      · have hic : importCond fr dbT (p, af) = true := by
          simp [importCond, hlk, hfr]
        have hstep : diffLoop fp fr ((p, af) :: rest) im0 dbT
            = diffLoop fp fr rest (im0 ++ [joinPath fp p]) (erasePath p dbT) := by
          simp [diffLoop, hlk, hfr]
        rw [hstep, ih (im0 ++ [joinPath fp p]) (erasePath p dbT) hnd' hnb', hfiltr,
          List.filter_cons_of_pos hic, hrem]
        simp [List.append_assoc]
      · have hfr' : fr = false := by simpa using hfr
        cases hai : af.info with
        | none =>
          exfalso
          simp [badInfo, hlk, hai, hfr'] at hbhead
        | some t =>
          by_cases hlt : dbTrack.updatedAt < t
          · have hic : importCond fr dbT (p, af) = true := by
              simp [importCond, hlk, hai, hlt]
            have hstep : diffLoop fp fr ((p, af) :: rest) im0 dbT
                = diffLoop fp fr rest (im0 ++ [joinPath fp p]) (erasePath p dbT) := by
              simp [diffLoop, hlk, hai, hlt, hfr']
            rw [hstep, ih (im0 ++ [joinPath fp p]) (erasePath p dbT) hnd' hnb', hfiltr,
              List.filter_cons_of_pos hic, hrem]
            simp [List.append_assoc]
          · have hic : importCond fr dbT (p, af) = false := by
              simp [importCond, hlk, hai, hlt, hfr']
            have hstep : diffLoop fp fr ((p, af) :: rest) im0 dbT
                = diffLoop fp fr rest im0 (erasePath p dbT) := by
              simp [diffLoop, hlk, hai, hlt, hfr']
            rw [hstep, ih im0 (erasePath p dbT) hnd' hnb', hfiltr,
              List.filter_cons_of_neg (by simp [hic]), hrem]

/-- If some listing entry is in the DB, no full rescan is forced, and its
file-info read fails, the classification loop returns the error — the
whole folder is aborted. -/
theorem diffLoop_error_of_bad (fp : String) (fr : Bool) :
    ∀ (files : List (String × AudioFile)) (im0 : List String) (dbT : List (String × MediaFile)),
      (files.map Prod.fst).Nodup →
      (∃ pa ∈ files, badInfo fr dbT pa = true) →
      diffLoop fp fr files im0 dbT = Except.error () := by
  intro files
  induction files with
  | nil =>
    rintro im0 dbT - ⟨pa, hpa, -⟩
    exact absurd hpa (List.not_mem_nil pa)
  | cons pa0 rest ih =>
    obtain ⟨p, af⟩ := pa0
    rintro im0 dbT hnd ⟨pa, hpa, hbad⟩
    have hnd2 : (p :: rest.map Prod.fst).Nodup := by simpa using hnd
    have hnds := List.nodup_cons.mp hnd2
    have hp : p ∉ rest.map Prod.fst := hnds.1
    have hnd' : (rest.map Prod.fst).Nodup := hnds.2
    have hne : ∀ pb ∈ rest, pb.1 ≠ p := by
      intro pb hpb he
      exact hp (he ▸ List.mem_map_of_mem Prod.fst hpb)
    cases hlk : lookupPath p dbT with
    | none =>
      have hstep : diffLoop fp fr ((p, af) :: rest) im0 dbT
          = diffLoop fp fr rest (im0 ++ [joinPath fp p]) (erasePath p dbT) := by
        simp [diffLoop, hlk]
      rcases List.mem_cons.mp hpa with rfl | hpa'
      · exfalso
        simp [badInfo, hlk] at hbad
      · rw [hstep]
        exact ih _ _ hnd'
          ⟨pa, hpa', by rw [badInfo_erasePath fr p dbT pa (hne pa hpa')]; exact hbad⟩
    | some dbTrack =>
      by_cases hfr : fr = true
      · have hstep : diffLoop fp fr ((p, af) :: rest) im0 dbT
            = diffLoop fp fr rest (im0 ++ [joinPath fp p]) (erasePath p dbT) := by
          simp [diffLoop, hlk, hfr]
        rcases List.mem_cons.mp hpa with rfl | hpa'
        · exfalso
          simp [badInfo, hlk, hfr] at hbad
        · rw [hstep]
          exact ih _ _ hnd'
            ⟨pa, hpa', by rw [badInfo_erasePath fr p dbT pa (hne pa hpa')]; exact hbad⟩
      · have hfr' : fr = false := by simpa using hfr
        cases hai : af.info with
        | none =>
          simp [diffLoop, hlk, hai, hfr']
        | some t =>
          rcases List.mem_cons.mp hpa with rfl | hpa'
          · exfalso
            simp [badInfo, hlk, hai] at hbad
          · by_cases hlt : dbTrack.updatedAt < t
            · have hstep : diffLoop fp fr ((p, af) :: rest) im0 dbT
                  = diffLoop fp fr rest (im0 ++ [joinPath fp p]) (erasePath p dbT) := by
                simp [diffLoop, hlk, hai, hlt, hfr']
              rw [hstep]
              exact ih _ _ hnd'
                ⟨pa, hpa', by rw [badInfo_erasePath fr p dbT pa (hne pa hpa')]; exact hbad⟩
            · have hstep : diffLoop fp fr ((p, af) :: rest) im0 dbT
                  = diffLoop fp fr rest im0 (erasePath p dbT) := by
                simp [diffLoop, hlk, hai, hlt, hfr']
              rw [hstep]
              exact ih _ _ hnd'
                ⟨pa, hpa', by rw [badInfo_erasePath fr p dbT pa (hne pa hpa')]; exact hbad⟩

/-- A successful classification pass means no entry hit a file-info
failure. -/
theorem diffLoop_noBad_of_ok (fp : String) (fr : Bool) (files : List (String × AudioFile))
    (im0 : List String) (dbT : List (String × MediaFile))
    (r : List String × List (String × MediaFile))
    (hnd : (files.map Prod.fst).Nodup)
    (hok : diffLoop fp fr files im0 dbT = Except.ok r) :
    ∀ pa ∈ files, badInfo fr dbT pa = false := by
  by_contra h
  push_neg at h
  obtain ⟨pa, hpa, hb⟩ := h
  have hb' : badInfo fr dbT pa = true := by
    cases hbb : badInfo fr dbT pa with
    | false => exact absurd hbb hb
    | true => rfl
  rw [diffLoop_error_of_bad fp fr files im0 dbT hnd ⟨pa, hpa, hb'⟩] at hok
  exact Except.noConfusion hok

/-- With pairwise distinct paths, the Go map built by `slice.ToMap` is
the straightforward association list. -/
theorem toMapByPath_aux (mfs : List MediaFile) :
    ∀ acc : List (String × MediaFile),
      (∀ mf ∈ mfs, ∀ kv ∈ acc, kv.1 ≠ mf.path) →
      (mfs.map MediaFile.path).Nodup →
      mfs.foldl (fun m mf => m.filter (fun kv => kv.1 != mf.path) ++ [(mf.path, mf)]) acc
        = acc ++ mfs.map (fun mf => (mf.path, mf)) := by
  induction mfs with
  | nil => intro acc _ _; simp
  | cons mf mfs ih =>
    intro acc hdisj hnd
    have hnd2 : (mf.path :: mfs.map MediaFile.path).Nodup := by simpa using hnd
    have hnds := List.nodup_cons.mp hnd2
    simp only [List.foldl_cons]
    have hfl : acc.filter (fun kv => kv.1 != mf.path) = acc := by
      apply List.filter_eq_self.mpr
      intro kv hkv
      exact bne_eq_true_of_ne (hdisj mf (List.mem_cons_self _ _) kv hkv)
    rw [hfl, ih (acc ++ [(mf.path, mf)]) ?_ hnds.2]
    · simp
    · intro mf' hmf' kv hkv
      rcases List.mem_append.mp hkv with h | h
      · exact hdisj mf' (List.mem_cons_of_mem _ hmf') kv h
      · have hkv' : kv = (mf.path, mf) := by simpa using h
        rw [hkv']
        intro he
        apply hnds.1
        have he' : mf.path = mf'.path := he
        rw [he']
        exact List.mem_map_of_mem MediaFile.path hmf'

theorem toMapByPath_eq_map (db : List MediaFile) (hdb : (db.map MediaFile.path).Nodup) :
    toMapByPath db = db.map (fun mf => (mf.path, mf)) := by
  have := toMapByPath_aux db []
    (fun mf _ kv hkv => absurd hkv (List.not_mem_nil kv)) hdb
  simpa [toMapByPath] using this

theorem lookupPath_map_pair (db : List MediaFile) (p : String) :
    lookupPath p (db.map (fun mf => (mf.path, mf))) = db.find? (fun mf => mf.path == p) := by
  unfold lookupPath
  rw [List.find?_map]
  have hpred : ((fun kv : String × MediaFile => kv.1 == p) ∘ fun mf => (mf.path, mf))
      = fun mf => mf.path == p := rfl
  rw [hpred]
  cases db.find? (fun mf => mf.path == p) <;> rfl

/-- The import condition, read over the DB rows: new path, forced full
rescan, or modification time strictly after the row's `updatedAt`. -/
theorem importCond_iff (fr : Bool) (db : List MediaFile) (pa : String × AudioFile)
    (hdb : (db.map MediaFile.path).Nodup) :
    importCond fr (db.map (fun mf => (mf.path, mf))) pa = true ↔
      ((∀ mf ∈ db, mf.path ≠ pa.1) ∨ fr = true ∨
        ∃ mf ∈ db, mf.path = pa.1 ∧ ∃ t, pa.2.info = some t ∧ mf.updatedAt < t) := by
  unfold importCond
  rw [lookupPath_map_pair]
  cases hfind : db.find? (fun mf => mf.path == pa.1) with
  | none =>
    constructor
    · intro _
      left
      intro mf hmf
      have := List.find?_eq_none.mp hfind mf hmf
      simpa using this
    · intro _
      rfl
  | some mf =>
    have hmem := List.mem_of_find?_eq_some hfind
    have hpath : mf.path = pa.1 := by simpa using List.find?_some hfind
    constructor
    · intro h
      rcases Bool.or_eq_true_iff.mp h with h | h
      · exact Or.inr (Or.inl h)
      · cases hai : pa.2.info with
        | none =>
          rw [hai] at h
          exact absurd h (by simp)
        | some t =>
          rw [hai] at h
          exact Or.inr (Or.inr ⟨mf, hmem, hpath, t, rfl, by simpa using h⟩)
    · intro h
      rcases h with h | h | h
      · exact absurd hpath (h mf hmem)
      · simp [h]
      · obtain ⟨mf', hmf', hpath', t, hinfo, hlt⟩ := h
        have hmm : mf' = mf :=
          List.inj_on_of_nodup_map hdb hmf' hmem (by rw [hpath, hpath'])
        subst hmm
        simp [hinfo, hlt]

/-- Joining two file names to the same directory gives equal full paths
only for equal names. -/
theorem joinPath_right_inj (dir a b : String) (h : joinPath dir a = joinPath dir b) : a = b := by
  have h2 := congrArg String.data h
  simp only [joinPath, String.data_append] at h2
  exact String.ext (List.append_cancel_left h2)

/-- Inversion of a successful `processFolder` run: the import list is the
joined paths of the listing entries satisfying the import condition, and
the missing candidates are the DB rows whose path is not on disk. -/
theorem processFolder_ok_inv {I : Type}
    (readTags : List String → Except Unit (List (String × I)))
    (toMediaFile : String → I → MediaFile) (libId : Nat) (fid : String)
    (fp : String) (fr : Bool) (audioFiles : List (String × AudioFile)) (db : List MediaFile)
    (res : FolderEntry)
    (hka : (audioFiles.map Prod.fst).Nodup)
    (hdb : (db.map MediaFile.path).Nodup)
    (hok : processFolder readTags toMediaFile libId fid fp fr audioFiles db = Except.ok res) :
    res.filesToImport
        = (audioFiles.filter (importCond fr (db.map (fun mf => (mf.path, mf))))).map
            (fun pa => joinPath fp pa.1)
      ∧ res.missingTracks
        = db.filter (fun mf => !((audioFiles.map Prod.fst).contains mf.path)) := by
  unfold processFolder at hok
  rw [toMapByPath_eq_map db hdb] at hok
  cases hdl : diffLoop fp fr audioFiles [] (db.map (fun mf => (mf.path, mf))) with
  | error e =>
    rw [hdl] at hok
    exact absurd hok (by simp)
  | ok pr =>
    obtain ⟨imports, rem⟩ := pr
    rw [hdl] at hok
    have hnb := diffLoop_noBad_of_ok fp fr audioFiles [] _ _ hka hdl
    have hspec := diffLoop_ok_of_noBad fp fr audioFiles [] _ hka hnb
    rw [hdl] at hspec
    simp only [Except.ok.injEq, Prod.mk.injEq, List.nil_append] at hspec
    obtain ⟨h1, h2⟩ := hspec
    have hok2 : (if imports.length > 0 then
        Except.ok (⟨imports, rem.map (·.2),
          (loadTagsFromFiles readTags toMediaFile libId fid imports).1,
          (loadTagsFromFiles readTags toMediaFile libId fid imports).2.1⟩ : FolderEntry)
      else Except.ok (⟨imports, rem.map (·.2), [], []⟩ : FolderEntry)) = Except.ok res := hok
    have hres : res.filesToImport = imports ∧ res.missingTracks = rem.map (·.2) := by
      by_cases hlen : imports.length > 0
      · rw [if_pos hlen] at hok2
        injection hok2 with h
        constructor <;> rw [← h]
      · rw [if_neg hlen] at hok2
        injection hok2 with h
        constructor <;> rw [← h]
    have hsnd : ((db.map (fun mf => (mf.path, mf))).filter
          (fun kv => !((audioFiles.map Prod.fst).contains kv.1))).map (·.2)
        = db.filter (fun mf => !((audioFiles.map Prod.fst).contains mf.path)) := by
      rw [List.filter_map, List.map_map]
      exact List.map_id'' (fun mf => rfl) _
    refine ⟨?_, ?_⟩
    · rw [hres.1, h1]
    · rw [hres.2, h2, hsnd]

/-- C1.  For every folder whose diff completes, a listed file is imported
iff its path has no DB row, or the full-rescan flag is set, or its file
modification time is strictly after the stored row's `updated_at`; every
DB row whose path has no on-disk file is a missing candidate; nothing
else is imported or marked. -/
theorem folder_diff_classification {I : Type}
    (readTags : List String → Except Unit (List (String × I)))
    (toMediaFile : String → I → MediaFile) (libId : Nat) (fid : String)
    (fp : String) (fr : Bool) (audioFiles : List (String × AudioFile)) (db : List MediaFile)
    (res : FolderEntry)
    (hka : (audioFiles.map Prod.fst).Nodup)
    (hdb : (db.map MediaFile.path).Nodup)
    (hok : processFolder readTags toMediaFile libId fid fp fr audioFiles db = Except.ok res) :
    diffClassifies fp fr audioFiles db res := by
  obtain ⟨hfi, hmt⟩ := processFolder_ok_inv readTags toMediaFile libId fid fp fr
    audioFiles db res hka hdb hok
  refine ⟨?_, ?_, ?_, ?_⟩
  · intro pa hpa
    rw [hfi, ← importCond_iff fr db pa hdb]
    constructor
    · intro hmem
      obtain ⟨pb, hpb, heq⟩ := List.mem_map.mp hmem
      obtain ⟨hpbmem, hpbcond⟩ := List.mem_filter.mp hpb
      have hfst : pb.1 = pa.1 := joinPath_right_inj fp pb.1 pa.1 heq
      have hpp : pb = pa := List.inj_on_of_nodup_map hka hpbmem hpa hfst
      rw [← hpp]
      exact hpbcond
    · intro hcond
      exact List.mem_map.mpr ⟨pa, List.mem_filter.mpr ⟨hpa, hcond⟩, rfl⟩
  · intro q hq
    rw [hfi] at hq
    obtain ⟨pb, hpb, heq⟩ := List.mem_map.mp hq
    exact ⟨pb, (List.mem_filter.mp hpb).1, heq.symm⟩
  · intro mf hmf
    rw [hmt, List.mem_filter]
    constructor
    · rintro ⟨-, hc⟩
      simpa [List.elem_eq_mem] using hc
    · intro hnotin
      exact ⟨hmf, by simpa [List.elem_eq_mem] using hnotin⟩
  · intro mf hmf
    rw [hmt] at hmf
    exact (List.mem_filter.mp hmf).1

/-- Witness for C1 on a folder with one new file, one unchanged file and
one vanished row. -/
theorem folder_diff_classification_witness :
    (c1Audio.map Prod.fst).Nodup ∧ (c1Db.map MediaFile.path).Nodup
    ∧ processFolder readTagsNone toMediaFileTriv 1 "f1" "/m" false c1Audio c1Db
        = Except.ok c1Res
    ∧ diffClassifies "/m" false c1Audio c1Db c1Res :=
  ⟨by decide, by decide, rfl,
    folder_diff_classification readTagsNone toMediaFileTriv 1 "f1" "/m" false c1Audio c1Db
      c1Res (by decide) (by decide) rfl⟩

/-- C10.  The diff classification is a partition: no missing candidate's
path is also queued for import, and each DB row is classified exactly one
way. -/
theorem folder_diff_partition {I : Type}
    (readTags : List String → Except Unit (List (String × I)))
    (toMediaFile : String → I → MediaFile) (libId : Nat) (fid : String)
    (fp : String) (fr : Bool) (audioFiles : List (String × AudioFile)) (db : List MediaFile)
    (res : FolderEntry)
    (hka : (audioFiles.map Prod.fst).Nodup)
    (hdb : (db.map MediaFile.path).Nodup)
    (hok : processFolder readTags toMediaFile libId fid fp fr audioFiles db = Except.ok res) :
    diffPartitions fp audioFiles db res := by
  obtain ⟨hfi, hmt⟩ := processFolder_ok_inv readTags toMediaFile libId fid fp fr
    audioFiles db res hka hdb hok
  refine ⟨?_, ?_, ?_⟩
  · intro mf hmf himp
    obtain ⟨-, hc⟩ := List.mem_filter.mp (by rw [hmt] at hmf; exact hmf)
    have hnotin : mf.path ∉ audioFiles.map Prod.fst := by
      simpa [List.elem_eq_mem] using hc
    rw [hfi] at himp
    obtain ⟨pb, hpb, heq⟩ := List.mem_map.mp himp
    have hfst : pb.1 = mf.path := joinPath_right_inj fp pb.1 mf.path heq
    exact hnotin (hfst ▸ List.mem_map_of_mem Prod.fst (List.mem_filter.mp hpb).1)
  · intro mf hmf
    rw [hmt, List.mem_filter]
    constructor
    · rintro ⟨-, hc⟩
      simpa [List.elem_eq_mem] using hc
    · intro hnotin
      exact ⟨hmf, by simpa [List.elem_eq_mem] using hnotin⟩
  · intro mf hmf
    rw [hmt] at hmf
    exact (List.mem_filter.mp hmf).1

/-- Witness for C10 on the same fixture folder. -/
theorem folder_diff_partition_witness :
    (c1Audio.map Prod.fst).Nodup ∧ (c1Db.map MediaFile.path).Nodup
    ∧ processFolder readTagsNone toMediaFileTriv 1 "f1" "/m" false c1Audio c1Db
        = Except.ok c1Res
    ∧ diffPartitions "/m" c1Audio c1Db c1Res :=
  ⟨by decide, by decide, rfl,
    folder_diff_partition readTagsNone toMediaFileTriv 1 "f1" "/m" false c1Audio c1Db
      c1Res (by decide) (by decide) rfl⟩

/-! ## C4: file-info failure handling -/

/-- C4 counterexample.  On a folder where reading `a.mp3`'s file info
fails and `b.mp3` is a new on-disk file, `processFolder` returns the
error: no folder entry is produced at all, so the remaining file `b.mp3`
is not classified — the failure aborts the folder, not just the file. -/
theorem file_info_failure_not_isolated :
    processFolder readTagsNone toMediaFileTriv 1 "f1" "/m" false c4Audio c4Db
        = Except.error ()
    ∧ ¬ ∃ res : FolderEntry,
        processFolder readTagsNone toMediaFileTriv 1 "f1" "/m" false c4Audio c4Db
          = Except.ok res := by
  refine ⟨rfl, ?_⟩
  rintro ⟨res, hres⟩
  rw [show processFolder readTagsNone toMediaFileTriv 1 "f1" "/m" false c4Audio c4Db
      = Except.error () from rfl] at hres
  exact Except.noConfusion hres

/-- C4 amended.  If reading the file info of a listed file that has a DB
row fails during a non-full rescan, `processFolder` aborts the whole
folder and surfaces the error to the orchestrator (no sibling-folder
state is involved); the folder's remaining files are not classified. -/
theorem file_info_failure_aborts_folder {I : Type}
    (readTags : List String → Except Unit (List (String × I)))
    (toMediaFile : String → I → MediaFile) (libId : Nat) (fid : String)
    (fp : String) (audioFiles : List (String × AudioFile)) (db : List MediaFile)
    (p : String) (af : AudioFile)
    (hka : (audioFiles.map Prod.fst).Nodup)
    (hdb : (db.map MediaFile.path).Nodup)
    (hmem : (p, af) ∈ audioFiles)
    (hinfo : af.info = none)
    (hindb : ∃ mf ∈ db, mf.path = p) :
    processFolder readTags toMediaFile libId fid fp false audioFiles db
      = Except.error () := by
  have hbad : badInfo false (db.map (fun mf => (mf.path, mf))) (p, af) = true := by
    unfold badInfo
    rw [show ((p, af).1 : String) = p from rfl, lookupPath_map_pair]
    cases hfind : db.find? (fun mf => mf.path == p) with
    | none =>
      exfalso
      obtain ⟨mf, hmf, hpath⟩ := hindb
      have := List.find?_eq_none.mp hfind mf hmf
      simp [hpath] at this
    | some y => simp [hinfo]
  have herr := diffLoop_error_of_bad fp false audioFiles []
    (db.map (fun mf => (mf.path, mf))) hka ⟨(p, af), hmem, hbad⟩
  unfold processFolder
  rw [toMapByPath_eq_map db hdb, herr]

/-- Witness for the amended C4 at the concrete fixture. -/
theorem file_info_failure_aborts_folder_witness :
    (c4Audio.map Prod.fst).Nodup ∧ (c4Db.map MediaFile.path).Nodup
    ∧ ("a.mp3", (⟨none⟩ : AudioFile)) ∈ c4Audio
    ∧ (⟨none⟩ : AudioFile).info = none
    ∧ (∃ mf ∈ c4Db, mf.path = "a.mp3")
    ∧ processFolder readTagsNone toMediaFileTriv 1 "f1" "/m" false c4Audio c4Db
        = Except.error () :=
  ⟨by decide, by decide, by decide, rfl, by decide,
    file_info_failure_aborts_folder readTagsNone toMediaFileTriv 1 "f1" "/m" c4Audio c4Db
      "a.mp3" ⟨none⟩ (by decide) (by decide) (by decide) rfl (by decide)⟩

/-! ## C6: folder-level extraction failure -/

/-- When extraction fails for the whole import list, `loadTagsFromFiles`
returns no tracks and no tags, together with the error. -/
theorem loadTagsFromFiles_error {I : Type}
    (readTags : List String → Except Unit (List (String × I)))
    (toMediaFile : String → I → MediaFile) (libId : Nat) (fid : String)
    (toImport : List String) (hne : toImport ≠ [])
    (herr : readTags toImport = Except.error ()) :
    loadTagsFromFiles readTags toMediaFile libId fid toImport = ([], [], some ()) := by
  cases toImport with
  | nil => exact absurd rfl hne
  | cons x t =>
    unfold loadTagsFromFiles chunksOf
    simp only [List.length_cons, chunksOfFuel]
    simp [loadTagsLoop, herr]

/-- C6.  A folder-level extraction failure is swallowed: `processFolder`
still returns the folder entry (no error propagates to abort other
folders), with no tracks and no tags produced for persistence — the
folder's tag-derived state is the empty update, leaving stored rows to be
retained. -/
theorem extraction_failure_swallowed {I : Type}
    (readTags : List String → Except Unit (List (String × I)))
    (toMediaFile : String → I → MediaFile) (libId : Nat) (fid : String)
    (fp : String) (fr : Bool) (audioFiles : List (String × AudioFile)) (db : List MediaFile)
    (imports : List String) (rem : List (String × MediaFile))
    (hdiff : diffLoop fp fr audioFiles [] (toMapByPath db) = Except.ok (imports, rem))
    (hne : imports ≠ [])
    (herr : readTags imports = Except.error ()) :
    processFolder readTags toMediaFile libId fid fp fr audioFiles db
      = Except.ok ⟨imports, rem.map (·.2), [], []⟩ := by
  have hload := loadTagsFromFiles_error readTags toMediaFile libId fid imports hne herr
  have hlen : 0 < imports.length := List.length_pos.mpr hne
  unfold processFolder
  rw [hdiff]
  simp [hlen, hload]

/-- Witness for C6 at a concrete folder whose single new file fails
extraction. -/
theorem extraction_failure_swallowed_witness :
    diffLoop "/m" false c6Audio [] (toMapByPath [])
        = Except.ok (["/m/a.mp3"], ([] : List (String × MediaFile)))
    ∧ (["/m/a.mp3"] : List String) ≠ []
    ∧ readTagsErr ["/m/a.mp3"] = Except.error ()
    ∧ processFolder readTagsErr toMediaFileTriv 1 "f1" "/m" false c6Audio []
        = Except.ok ⟨["/m/a.mp3"], ([] : List (String × MediaFile)).map (·.2), [], []⟩ :=
  ⟨rfl, by decide, rfl,
    extraction_failure_swallowed readTagsErr toMediaFileTriv 1 "f1" "/m" false c6Audio []
      ["/m/a.mp3"] [] rfl (by decide) rfl⟩

/-! ## C7: missing-tag-data policy of the participation mapper -/

theorem Participations.add_apply_ne (p : Participations) (role : Role) (artists : List Artist)
    (r : Role) (h : r ≠ role) : (p.add role artists) r = p r := by
  simp [Participations.add, h]

theorem addAll_apply_ne (role : Role) (r : Role) (h : r ≠ role) :
    ∀ (artists : List Artist) (p : Participations), (addAll p role artists) r = p r := by
  intro artists
  induction artists with
  | nil => intro p; rfl
  | cons a as ih =>
    intro p
    simp only [addAll, List.foldl_cons]
    rw [show (List.foldl (fun p a => p.add role [a]) (p.add role [a]) as)
        = addAll (p.add role [a]) role as from rfl]
    rw [ih (p.add role [a])]
    exact Participations.add_apply_ne p role [a] r h

theorem addAll_apply_eq (role : Role) :
    ∀ (artists : List Artist) (p : Participations),
      (addAll p role artists) role = addArtists (p role) artists := by
  intro artists
  induction artists with
  | nil => intro p; rfl
  | cons a as ih =>
    intro p
    simp only [addAll, List.foldl_cons]
    rw [show (List.foldl (fun p a => p.add role [a]) (p.add role [a]) as)
        = addAll (p.add role [a]) role as from rfl]
    rw [ih (p.add role [a]), addArtists_cons]
    have : (p.add role [a]) role = addArtists (p role) [a] := by
      simp [Participations.add]
    rw [this]
    rfl

/-- The table-driven secondary-role pass never touches a role outside the
table. -/
theorem foldRoles_apply_ne (md : Metadata) (r : Role) :
    ∀ (l : List (Role × ArtistInfo)) (p : Participations), (∀ ri ∈ l, r ≠ ri.1) →
      (l.foldl (fun p ri =>
        addAll p ri.1 (md.parseArtist (md.getTags [ri.2.name]) (md.getTags [ri.2.sort])
          (md.strings ri.2.mbid))) p) r = p r := by
  intro l
  induction l with
  | nil => intro p _; rfl
  | cons ri l ih =>
    intro p h
    simp only [List.foldl_cons]
    rw [ih _ (fun rj hj => h rj (List.mem_cons_of_mem _ hj))]
    exact addAll_apply_ne ri.1 r (h ri (List.mem_cons_self _ _)) _ p

theorem getTags_pair_nil (md : Metadata) (t1 t2 : TagName)
    (h1 : md.strings t1 = []) (h2 : md.strings t2 = []) :
    md.getTags [t1, t2] = [] := by
  simp [Metadata.getTags, h1, h2]

/-- With no name tags at all, `parseArtists` yields exactly one artist,
named by the sentinel `consts.UnknownArtist`. -/
theorem parseArtists_of_no_tags (md : Metadata) (name names sort sorts mbid : TagName)
    (h1 : md.strings names = []) (h2 : md.strings name = []) :
    ∃ a : Artist, md.parseArtists name names sort sorts mbid = [a]
      ∧ a.name = unknownArtist := by
  refine ⟨⟨md.artistID unknownArtist, unknownArtist, (md.getTags [sorts, sort]).getD 0 "",
    md.sanitize unknownArtist, (md.strings mbid).getD 0 ""⟩, ?_, rfl⟩
  unfold Metadata.parseArtists
  rw [getTags_pair_nil md names name h1 h2]
  rfl

/-- C7.  With no track-artist tag present the mapper substitutes a single
sentinel Unknown Artist entity as the track artist; with no album-artist
tag present the album-artist participation list equals the track-artist
list. -/
theorem missing_artist_policy (md : Metadata) :
    ((md.strings TrackArtists = [] ∧ md.strings TrackArtist = []) →
      ∃ a : Artist, md.mapParticipations Role.artist = [a] ∧ a.name = unknownArtist)
    ∧ ((md.strings AlbumArtists = [] ∧ md.strings AlbumArtist = []) →
      md.mapParticipations Role.albumArtist = md.mapParticipations Role.artist) := by
  have hrole_art : ∀ ri ∈ roleMappings, Role.artist ≠ ri.1 := by decide
  have hrole_alb : ∀ ri ∈ roleMappings, Role.albumArtist ≠ ri.1 := by decide
  constructor
  · rintro ⟨h1, h2⟩
    obtain ⟨a, ha, haname⟩ := parseArtists_of_no_tags md TrackArtist TrackArtists
      TrackArtistSort TrackArtistsSort MusicBrainzArtistID h1 h2
    refine ⟨a, ?_, haname⟩
    simp only [Metadata.mapParticipations]
    rw [foldRoles_apply_ne md Role.artist roleMappings _ hrole_art,
      addAll_apply_ne Role.albumArtist Role.artist (by decide),
      addAll_apply_eq Role.artist, ha]
    rfl
  · rintro ⟨h3, h4⟩
    obtain ⟨b, hb, hbname⟩ := parseArtists_of_no_tags md AlbumArtist AlbumArtists
      AlbumArtistSort AlbumArtistsSort MusicBrainzAlbumArtistID h3 h4
    simp only [Metadata.mapParticipations]
    rw [foldRoles_apply_ne md Role.albumArtist roleMappings _ hrole_alb,
      foldRoles_apply_ne md Role.artist roleMappings _ hrole_art, hb]
    dsimp only
    rw [if_pos hbname]
    rw [addAll_apply_eq Role.albumArtist,
      addAll_apply_ne Role.artist Role.albumArtist (by decide),
      addAll_apply_ne Role.albumArtist Role.artist (by decide),
      addAll_apply_eq Role.artist]
    rfl

/-- Witness for C7 on a metadata value with no tags at all. -/
theorem missing_artist_policy_witness :
    ((md0.strings TrackArtists = [] ∧ md0.strings TrackArtist = [])
      ∧ (md0.strings AlbumArtists = [] ∧ md0.strings AlbumArtist = []))
    ∧ (∃ a : Artist, md0.mapParticipations Role.artist = [a] ∧ a.name = unknownArtist)
    ∧ md0.mapParticipations Role.albumArtist = md0.mapParticipations Role.artist :=
  ⟨⟨⟨rfl, rfl⟩, ⟨rfl, rfl⟩⟩,
    (missing_artist_policy md0).1 ⟨rfl, rfl⟩,
    (missing_artist_policy md0).2 ⟨rfl, rfl⟩⟩

end Navidrome
